import Mathlib

/-!
Verification development for the multi-dimensional hot-region balancer
(`server/schedulers/multi_dim_scheduler.go`).

Shallow embedding conventions:
* Go `float64` load values are modelled as exact rationals (`ℚ`); the
  balancer only adds, subtracts, multiplies, divides and compares loads,
  so rational arithmetic mirrors the real-number intent of the code.
  Division by zero in `ℚ` yields 0; wherever a claim depends on a
  quotient the relevant denominator is assumed (or proved) nonzero.
* Go maps are modelled as association lists, Go slices as lists.
  Go map iteration order is unspecified; the embedding fixes the input
  list order (the scheduler sorts the store list before its decision
  loop, so this only resolves ties the Go code leaves nondeterministic).
* External collaborators (cluster view, filter chains, operator
  constructors, the hot-statistics pipeline) are not part of the source
  file; they enter the model as oracle fields of `CycleInput`.
* Repository functions referenced by the source file but defined in
  other files of the repository (not under the provided source) are
  modelled from the specification; each such definition carries a
  `Modelled from the spec:` doc comment.
-/

namespace MultiDim

attribute [local semireducible] Rat.add Rat.sub Rat.mul Rat.inv

/-- Six-axis load vector, indexed `[wb, wk, wo, rb, rk, ro]`. -/
abbrev LoadVec := Fin 6 → ℚ

/-- Operation type of a decision (`opType` values used by the scheduler). -/
inductive OpType where
  | movePeer
  | transferLeader
deriving DecidableEq, Repr

/-- What an emitted operator does; split-region operators come from
`buildSplitOperation`, the others from `buildOperators`. -/
inductive OpKind where
  | movePeer
  | transferLeader
  | splitRegion
deriving DecidableEq, Repr

/-- Modelled from the spec: the collaborator `operator.Operator` (defined
outside the source file). The scheduler reads `RegionID()`, `IsEnd()` and
`GetStartTime()`; `startTime` is the time the operator started executing
and `finishTime` the time it ended (meaningful once `isEnd` holds, and
never earlier than `startTime`). `splitOpts` records the
`(splitDim, splitRatio, splitType)` options of a split operator. -/
structure Op where
  regionID : Nat
  kind : OpKind
  startTime : ℚ
  finishTime : ℚ
  isEnd : Bool
  splitOpts : List ℚ := []
deriving DecidableEq, Repr

/-- One entry of `h.pendings` (`pendingLoadInfluence`). -/
structure PendingLoadInfluence where
  op : Op
  srcStoreID : Nat
  dstStoreID : Nat
  infl : LoadVec

/-- `peerInfo`: one replica of one region on one store, with normalized
loads; `rawLoads` keeps the raw hot-peer statistic used for operator
construction (`peerStat.GetLoads()`). -/
structure PeerInfo where
  regionID : Nat
  storeID : Nat
  loads : LoadVec
  rawLoads : LoadVec
  isLeader : Bool

/-- `storeInfo`: one store with normalized loads and its hot peers. -/
structure StoreInfo where
  id : Nat
  loads : LoadVec
  hotPeers : List PeerInfo

/-- `multiBalancer`: the per-snapshot state (`allowedMap` is the
membership view of `allowedDimensions` and is modelled by list
membership). -/
structure Balancer where
  storeInfos : List StoreInfo
  allowedDimensions : List (Fin 6)
  splitCandidates : List (Nat × List PeerInfo)
  scheduledRegions : List Nat
  skipSchedule : Bool

/-- Mutable scheduler state of `multiDimensionScheduler` (the fields the
decision engine reads and writes). -/
structure SchedState where
  pendings : List PendingLoadInfluence
  regionPendings : List (Nat × Op)
  pendingSums : Nat → LoadVec
  balanceRatio : ℚ
  relaxBalanceCondition : Bool
  splitTrigeCount : Nat
  hasSplit : Bool
  needInit : Bool
  curBalancer : Option Balancer

/-- Ephemeral per-migration record (`decision`); fields the ledger and the
operator builder read. Unset fields take Go zero values. -/
structure Decision where
  srcStoreID : Nat := 0
  dstStoreID : Nat := 0
  opTy : OpType := OpType.movePeer
  srcPeerStat : LoadVec := fun _ => 0

/-- The hot-peer statistic handed to the snapshot, after the external
`filterHotPeers` filtering (regionID, raw six-axis loads, leader flag). -/
structure HotPeerStat where
  regionID : Nat
  loads : LoadVec
  isLeader : Bool

/-- Per-cycle external inputs: the cluster collaborator, configuration and
external helpers, abstracted as oracles. -/
structure CycleInput where
  /-- `GetOpts().GetHotSchedulerMode()`. -/
  mode : Nat
  /-- `GetOpts().GetHotBalanceRatio()`. -/
  hotBalanceRatio : ℚ
  /-- `time.Now()` for this cycle. -/
  now : ℚ
  /-- `conf.GetMaxZombieDuration()`. -/
  maxZombieDuration : ℚ
  /-- External `summaryPendingLoadInfluence` with the collaborator weight
  function: per-store pending load sums computed from the pendings set. -/
  summarize : List PendingLoadInfluence → Nat → LoadVec
  /-- `GetStoresStats().GetStoresLoadsStat()`: per store its six raw axis
  loads (one entry per store). -/
  storeLoads : List (Nat × LoadVec)
  /-- Per store, its hot peers after the external `filterHotPeers`. -/
  hotPeers : Nat → List HotPeerStat
  /-- Scheduler noise floors (`minExpLoads`, set from config constants). -/
  minExpLoads : LoadVec
  /-- `getRegion`: region lookup plus health and replication checks
  (external collaborators); `true` when the region can be used. -/
  regionOK : Nat → Bool
  /-- `getCandidateStoreIDs`: external filter chain, keyed by operation
  type and region id; returns the surviving candidate store ids. -/
  candidateStores : OpType → Nat → List Nat
  /-- Whether the external operator construction succeeds for this
  operation type and region (source peer present, destination voter
  present for transfer-leader, builder returns no error). -/
  buildOK : OpType → Nat → Bool

/-- Constant `balanceRatioConst = 0.1`. -/
def balanceRatioConst : ℚ := 1/10

/-- Constant `loadStableThresholdConst = 0.2`. -/
def loadStableThresholdConst : ℚ := 1/5

/-- Constant `allowedDeviation = 0.05`. -/
def allowedDeviation : ℚ := 1/20

/-- `convertToSplitInfo`: split parameters from the balanced dimension.
`splitType = 1 - dimID/3` in Go `uint64` arithmetic (wrapping), and
`splitDim` is 0 for the byte axes (`dimID % 3 == 0`), else 1. Returns
`(splitDim, splitType)`. -/
def convertToSplitInfo (dimID : Nat) : Nat × Nat :=
  let splitType : Nat := ((1 - (dimID : Int) / 3) % (2 ^ 64 : Int)).toNat
  let splitDim : Nat := if dimID % 3 = 0 then 0 else 1
  (splitDim, splitType)

/-- Membership test of `h.regionPendings` (Go map lookup by region id). -/
def hasRegionPending (l : List (Nat × Op)) (r : Nat) : Bool :=
  l.any (fun e => e.1 == r)

/-- `addPendingInfluence`: inserts a pending influence and the
region-pending entry unless the region already has one; returns the Go
boolean together with the updated scheduler state. -/
def addPendingInfluence (st : SchedState) (op : Op) (deci : Decision)
    (infl : LoadVec) : Bool × SchedState :=
  if hasRegionPending st.regionPendings op.regionID then
    (false, st)
  else
    (true,
      { st with
        pendings := { op := op, srcStoreID := deci.srcStoreID,
                      dstStoreID := deci.dstStoreID, infl := infl } :: st.pendings
        regionPendings := (op.regionID, op) :: st.regionPendings })

/-- The registration loop over an operator batch
(`for i := 0; i < len(ops); i++ { if !addPendingInfluence(...) { return nil } }`):
registers operators one at a time; on the first failure it stops,
keeping the registrations already made (the source marks this with
`TODO: multiple operators need to be atomic`). Returns `false` iff some
registration failed. -/
def registerPendingBatch (st : SchedState) (deci : Decision) :
    List (Op × LoadVec) → Bool × SchedState
  | [] => (true, st)
  | (op, infl) :: rest =>
      let r := addPendingInfluence st op deci infl
      if r.1 then registerPendingBatch r.2 deci rest else (false, r.2)

/-- `gcRegionPendings`: drop a region-pending entry when its operator has
ended and `time.Now()` is after `GetStartTime() + maxZombieDuration`. -/
def gcRegionPendings (now maxZombie : ℚ) (l : List (Nat × Op)) : List (Nat × Op) :=
  l.filter (fun e => !(e.2.isEnd && decide (e.2.startTime + maxZombie < now)))

/-- `summaryPendingInfluence`: recompute `pendingSums` via the external
summarizer and garbage-collect the region pendings. -/
def summaryPendingInfluence (env : CycleInput) (st : SchedState) : SchedState :=
  { st with
    pendingSums := env.summarize st.pendings
    regionPendings := gcRegionPendings env.now env.maxZombieDuration st.regionPendings }

/-- `shouldWaitPendingOps`: with no pending region, clear `hasSplit` and
request re-initialization; otherwise wait when relaxed or after a split. -/
def shouldWaitPendingOps (st : SchedState) : Bool × SchedState :=
  if st.regionPendings = [] then
    (false, { st with hasSplit := false, needInit := true })
  else if st.relaxBalanceCondition || st.hasSplit then
    (true, st)
  else
    (false, st)

/-- Per-axis expected (mean) loads: `expLoads[i] = Σ_s raw[i][s] / |stores|`,
computed from the raw loads before pending influence is added. -/
def expLoadsOf (storeLoads : List (Nat × LoadVec)) : LoadVec :=
  fun i => (storeLoads.map (fun s => s.2 i)).sum / (storeLoads.length : ℚ)

/-- `needSkipSchedule`: axis `i` is allowed iff it is not an ops axis
(`i ≠ 2, 5`) and its expected load reaches the noise floor. The cycle is
skipped when no axis is allowed. -/
def allowedDimsOf (minExp exp : LoadVec) : List (Fin 6) :=
  (List.finRange 6).filter
    (fun i => decide (i.val ≠ 2) && decide (i.val ≠ 5) && decide (minExp i ≤ exp i))

/-- Normalized peer info built in `initHotPeerInfo`: loads divided by the
per-axis means, read axes zeroed for non-leader peers. -/
def mkPeerInfo (exp : LoadVec) (storeID : Nat) (hp : HotPeerStat) : PeerInfo :=
  { regionID := hp.regionID
    storeID := storeID
    loads := fun i => if !hp.isLeader && decide (3 ≤ i.val) then 0 else hp.loads i / exp i
    rawLoads := hp.loads
    isLeader := hp.isLeader }

/-- Normalized store info built in `initHotPeerInfo`: the store load is
the raw load plus the store's pending influence, divided by the mean. -/
def mkStoreInfo (env : CycleInput) (exp : LoadVec) (pend : Nat → LoadVec)
    (entry : Nat × LoadVec) : StoreInfo :=
  { id := entry.1
    loads := fun i => (entry.2 i + pend entry.1 i) / exp i
    hotPeers := (env.hotPeers entry.1).map (mkPeerInfo exp entry.1) }

/-- Stability ratio of one store: the worst allowed-axis value of
`|storeTotal − hotPeerTotal| / storeTotal` (totals in KiB as in the
source). -/
def storeDiffRatio (env : CycleInput) (exp : LoadVec) (pend : Nat → LoadVec)
    (allowed : List (Fin 6)) (entry : Nat × LoadVec) : ℚ :=
  allowed.foldl
    (fun m i =>
      let storeTotal := (entry.2 i + pend entry.1 i) / 1024
      let hotTotal :=
        ((env.hotPeers entry.1).map
          (fun hp => (mkPeerInfo exp entry.1 hp).loads i * exp i / 1024)).sum
      max m |(storeTotal - hotTotal) / storeTotal|)
    0

/-- `maxLoadDiffRatio` over all stores and allowed axes. -/
def maxLoadDiffRatio (env : CycleInput) (exp : LoadVec) (pend : Nat → LoadVec)
    (allowed : List (Fin 6)) : ℚ :=
  env.storeLoads.foldl (fun m entry => max m (storeDiffRatio env exp pend allowed entry)) 0

/-- `newMultiBalancer` / `initHotPeerInfo`: build the per-cycle snapshot.
With no allowed dimension the balancer is marked skipped and left empty;
otherwise store infos are built from pending-adjusted normalized loads,
and the load-stability gate (`> loadStableThresholdConst`) marks the
cycle skipped and requests re-initialization. `scheduledRegions` starts
empty. -/
def newMultiBalancer (env : CycleInput) (st : SchedState) : Balancer × SchedState :=
  let exp := expLoadsOf env.storeLoads
  let allowed := allowedDimsOf env.minExpLoads exp
  if allowed = [] then
    ({ storeInfos := [], allowedDimensions := [], splitCandidates := [],
       scheduledRegions := [], skipSchedule := true }, st)
  else
    let infos := env.storeLoads.map (mkStoreInfo env exp st.pendingSums)
    let unstable := loadStableThresholdConst < maxLoadDiffRatio env exp st.pendingSums allowed
    ({ storeInfos := infos, allowedDimensions := allowed, splitCandidates := [],
       scheduledRegions := [], skipSchedule := unstable },
     if unstable then { st with needInit := true } else st)

/-- Modelled from the spec: `loadCanTransfered` (defined outside the
source file) "returns true for read dimensions (3–5) and false for write
dimensions (0–2)". -/
def loadCanTransfered (i : Fin 6) : Bool :=
  decide (3 ≤ i.val)

/-- Modelled from the spec: `storeInfo.getMaxLoadInfo` (defined outside
the source file) returns the store's "worst allowed axis `(maxID,
maxLoad)`": the allowed index maximizing its normalized load (first
maximum wins; zero and axis 0 when there is no allowed axis). -/
def getMaxLoadInfo (si : StoreInfo) (allowed : List (Fin 6)) : Fin 6 × ℚ :=
  allowed.foldl (fun acc i => if acc.2 < si.loads i then (i, si.loads i) else acc)
    ((0 : Fin 6), 0)

/-- `loadOfMigrated`: worst allowed-axis post-migration load of a
destination store, skipping non-transferable axes for transfer-leader. -/
def loadOfMigrated (allowed : List (Fin 6)) (peer : PeerInfo) (store : StoreInfo)
    (opTy : OpType) : ℚ :=
  allowed.foldl
    (fun m i =>
      if opTy = OpType.transferLeader && !loadCanTransfered i then m
      else max m (store.loads i + peer.loads i))
    0

/-- The large-region classification of `pickBestDstStore`: some allowed
axis of the peer's normalized load exceeds the balance ratio. -/
def isLargeRegion (allowed : List (Fin 6)) (peer : PeerInfo) (ratio : ℚ) : Bool :=
  allowed.any (fun i => decide (ratio < peer.loads i))

/-- `x < minLoad` where `minLoad` may still be the `math.MaxFloat64`
sentinel (modelled as `none`, i.e. plus infinity). -/
def ltMin (x : ℚ) : Option ℚ → Bool
  | none => true
  | some m => decide (x < m)

/-- Strict comparison of two possibly-infinite minima
(`minLoadPeer < minLoad` in `pickBestDstStore`). -/
def ltMinMin : Option ℚ → Option ℚ → Bool
  | some x, m => ltMin x m
  | none, _ => false

/-- `filterDstStores`: scan the snapshot stores in order, keep those in
the external candidate set, and record the store minimizing the
post-migration load (the accumulator starts at the `math.MaxFloat64`
sentinel `(none, none)`; the first strict minimum wins); a large region
only accepts destinations with post-load at most `1 + balanceRatio`. -/
def filterDstStores (cands : List Nat) (allowed : List (Fin 6)) (ratio : ℚ)
    (peer : PeerInfo) (opTy : OpType) (isLarge : Bool) :
    List StoreInfo → Option StoreInfo × Option ℚ → Option StoreInfo × Option ℚ
  | [], acc => acc
  | store :: rest, acc =>
      let acc2 :=
        if store.id ∈ cands then
          let newLoad := loadOfMigrated allowed peer store opTy
          if (decide (newLoad ≤ 1 + ratio) || !isLarge) && ltMin newLoad acc.2 then
            (some store, some newLoad)
          else acc
        else acc
      filterDstStores cands allowed ratio peer opTy isLarge rest acc2

/-- `pickBestDstStore`: try transfer-leader for leader peers when the
target dimension is transferable, always try move-peer, and keep
whichever yields the strictly smaller post-migration load (ties keep the
transfer-leader choice). Returns the chosen destination and operation
type, or `none`. -/
def pickBestDstStore (env : CycleInput) (storeInfos : List StoreInfo)
    (allowed : List (Fin 6)) (ratio : ℚ) (peer : PeerInfo) (regionID : Nat)
    (targetDim : Fin 6) : Option (StoreInfo × OpType) :=
  let isLarge := isLargeRegion allowed peer ratio
  let tl :=
    if peer.isLeader && loadCanTransfered targetDim then
      filterDstStores (env.candidateStores OpType.transferLeader regionID)
        allowed ratio peer OpType.transferLeader isLarge storeInfos (none, none)
    else (none, none)
  let mp :=
    filterDstStores (env.candidateStores OpType.movePeer regionID)
      allowed ratio peer OpType.movePeer isLarge storeInfos (none, none)
  if ltMinMin mp.2 tl.2 then
    mp.1.map (fun s => (s, OpType.movePeer))
  else
    tl.1.map (fun s => (s, OpType.transferLeader))

/-- The operator kind corresponding to a decision's operation type. -/
def kindOf : OpType → OpKind
  | OpType.movePeer => OpKind.movePeer
  | OpType.transferLeader => OpKind.transferLeader

/-- `buildOperators`: one operator per decision; construction can fail
(missing source peer, no voter at the transfer-leader destination, or a
builder error — the external `buildOK` oracle). The attributed load
influence is the source peer's raw statistic, with the write axes zeroed
for transfer-leader. -/
def buildOperators (env : CycleInput) (cur : Decision) (regionID : Nat) :
    Option (List Op × List LoadVec) :=
  if env.buildOK cur.opTy regionID then
    let loads : LoadVec :=
      if cur.opTy = OpType.transferLeader then
        fun i => if i.val ≤ 2 then 0 else cur.srcPeerStat i
      else cur.srcPeerStat
    some ([{ regionID := regionID, kind := kindOf cur.opTy, startTime := env.now,
             finishTime := 0, isEnd := false }], [loads])
  else none

/-- The split-region operator built by `buildSplitOperation`, carrying
the options `(splitDim, splitRatio, splitType)` from
`convertToSplitInfo`. -/
def mkSplitOp (env : CycleInput) (p : PeerInfo) (dimID : Fin 6) (splitRatio : ℚ) : Op :=
  { regionID := p.regionID, kind := OpKind.splitRegion, startTime := env.now,
    finishTime := 0, isEnd := false,
    splitOpts := [((convertToSplitInfo dimID.val).1 : ℚ), splitRatio,
      ((convertToSplitInfo dimID.val).2 : ℚ)] }

/-- `buildSplitOperation`: always one split operator, with zero load
influence. -/
def buildSplitOperation (env : CycleInput) (p : PeerInfo) (dimID : Fin 6)
    (splitRatio : ℚ) : List Op × List LoadVec :=
  ([mkSplitOp env p dimID splitRatio], [fun _ => 0])

/-- Modelled from the spec: `migratePeer` (defined outside the source
file) "update[s] in-memory store loads to reflect the migration": the
peer's load leaves the source store and arrives at the destination; a
transfer-leader moves only the transferable (read) axes. -/
def migratePeer (b : Balancer) (srcID dstID : Nat) (p : PeerInfo) (opTy : OpType) :
    Balancer :=
  { b with
    storeInfos := b.storeInfos.map (fun si =>
      if si.id = srcID then
        { si with loads := fun i =>
            if opTy = OpType.movePeer || loadCanTransfered i then si.loads i - p.loads i
            else si.loads i }
      else if si.id = dstID then
        { si with loads := fun i =>
            if opTy = OpType.movePeer || loadCanTransfered i then si.loads i + p.loads i
            else si.loads i }
      else si) }

/-- Append a peer to a store's split-candidate list, keeping recording
order. -/
def addToCandMap : List (Nat × List PeerInfo) → Nat → PeerInfo → List (Nat × List PeerInfo)
  | [], s, p => [(s, [p])]
  | (k, ps) :: rest, s, p =>
      if k = s then (k, ps ++ [p]) :: rest else (k, ps) :: addToCandMap rest s p

/-- `balancer.splitCandidates[store.id] = append(...)`. -/
def addSplitCandidate (b : Balancer) (storeID : Nat) (p : PeerInfo) : Balancer :=
  { b with splitCandidates := addToCandMap b.splitCandidates storeID p }

/-- Lookup of a store's recorded split candidates. -/
def findCandidates : List (Nat × List PeerInfo) → Nat → Option (List PeerInfo)
  | [], _ => none
  | (k, ps) :: rest, s => if k = s then some ps else findCandidates rest s

/-- Modelled from the spec: `buildSortedPeers` (defined outside the
source file) ranks the store's hot peers "by contribution to axis
`maxID`, descending"; insertion keeps the first of equal keys ahead. -/
def insertPeerDesc (dim : Fin 6) (p : PeerInfo) : List PeerInfo → List PeerInfo
  | [] => [p]
  | q :: rest =>
      if q.loads dim < p.loads dim then p :: q :: rest else q :: insertPeerDesc dim p rest

/-- Sort peers descending by their load on the given axis. -/
def sortPeersDesc (dim : Fin 6) (ps : List PeerInfo) : List PeerInfo :=
  ps.foldr (insertPeerDesc dim) []

/-- `sortedPeers.remainLoads` after the peers of the list have been
popped: the summed contribution of the still-unpopped peers. -/
def remainLoadsOf (dim : Fin 6) (ps : List PeerInfo) : ℚ :=
  (ps.map (fun p => p.loads dim)).sum

/-- Insertion step for the descending store sort on the chosen axis. -/
def insertStoreDesc (dim : Fin 6) (s : StoreInfo) : List StoreInfo → List StoreInfo
  | [] => [s]
  | t :: rest =>
      if t.loads dim < s.loads dim then s :: t :: rest else t :: insertStoreDesc dim s rest

/-- `sort.Slice(balancer.storeInfos, ...)`: stores descending by their
load on the globally hottest axis (a deterministic refinement of the
unstable Go sort). -/
def sortStoresDesc (dim : Fin 6) (l : List StoreInfo) : List StoreInfo :=
  l.foldr (insertStoreDesc dim) []

/-- The axis with the globally highest store load across allowed
dimensions (stores outer, dimensions inner, first maximum wins). -/
def globalMaxDim (b : Balancer) : Fin 6 :=
  (b.storeInfos.foldl
    (fun acc si =>
      b.allowedDimensions.foldl
        (fun acc2 i => if acc2.2 < si.loads i then (i, si.loads i) else acc2) acc)
    ((0 : Fin 6), (0 : ℚ))).1

/-- Modelled from the spec: `calcBalanceRatio` (defined outside the
source file) computes the "current balance ratio (max/min store load
across allowed dims)". -/
def calcBalanceRatio (infos : List StoreInfo) (allowed : List (Fin 6)) : ℚ :=
  match infos.flatMap (fun si => allowed.map (fun i => si.loads i)) with
  | [] => 0
  | v :: rest => (rest.foldl max v) / (rest.foldl min v)

/-- Outcome of the store/peer loops of `solveMultiLoads`: either the loop
fell through, or the function returned an operator batch. -/
inductive LoopOut where
  | fall (st : SchedState) (b : Balancer)
  | done (ops : List Op) (st : SchedState) (b : Balancer)

/-- The peer loop of `solveMultiLoads` for one source store: pop sorted
peers; skip regions already scheduled this balancer; stop when the
remaining mass cannot rebalance the store; record too-large peers as
split candidates; otherwise choose a destination, build the operator
batch, register pending influences (aborting the whole cycle with `nil`
on a registration failure), apply the in-memory migration, mark the
region scheduled, reset the split trigger and return the batch. -/
def peerLoop (env : CycleInput) (store : StoreInfo) (maxID : Fin 6) (maxLoad : ℚ) :
    List PeerInfo → SchedState → Balancer → LoopOut
  | [], st, b => LoopOut.fall st b
  | p :: rest, st, b =>
      if p.regionID ∈ b.scheduledRegions then
        peerLoop env store maxID maxLoad rest st b
      else
        let remainLoad := p.loads maxID + remainLoadsOf maxID rest
        if remainLoad < st.balanceRatio ∨ remainLoad < (maxLoad - 1) * (8/10) then
          LoopOut.fall st b
        else if maxLoad - p.loads maxID < 1 - st.balanceRatio then
          peerLoop env store maxID maxLoad rest st (addSplitCandidate b store.id p)
        else if !env.regionOK p.regionID then
          peerLoop env store maxID maxLoad rest st b
        else
          match pickBestDstStore env b.storeInfos b.allowedDimensions st.balanceRatio
              p p.regionID maxID with
          | none => peerLoop env store maxID maxLoad rest st (addSplitCandidate b store.id p)
          | some (dst, opTy) =>
              let cur : Decision :=
                { srcStoreID := store.id, dstStoreID := dst.id, opTy := opTy,
                  srcPeerStat := p.rawLoads }
              let built := buildOperators env cur p.regionID
              let ops := (built.map Prod.fst).getD []
              let infls := (built.map Prod.snd).getD []
              let reg := registerPendingBatch st cur (ops.zip infls)
              if !reg.1 then
                LoopOut.done [] reg.2 b
              else
                let b2 := migratePeer b store.id dst.id p opTy
                LoopOut.done ops { reg.2 with splitTrigeCount := 0 }
                  { b2 with scheduledRegions := p.regionID :: b2.scheduledRegions }

/-- The relaxation reset inside the store loop: when the balancer is in
the relaxed state and an over-tolerance store is found, restore the
configured balance ratio and clear the relaxation flag. -/
def relaxReset (env : CycleInput) (st : SchedState) : SchedState :=
  if st.relaxBalanceCondition then
    { st with balanceRatio := env.hotBalanceRatio, relaxBalanceCondition := false }
  else st

/-- The store loop of `solveMultiLoads`: skip stores within tolerance;
on the first store above tolerance, drop an active relaxation (restoring
the configured balance ratio) and run the peer loop. -/
def storeLoop (env : CycleInput) :
    List StoreInfo → SchedState → Balancer → LoopOut
  | [], st, b => LoopOut.fall st b
  | store :: rest, st, b =>
      let info := getMaxLoadInfo store b.allowedDimensions
      if info.2 ≤ 1 + st.balanceRatio then
        storeLoop env rest st b
      else
        match peerLoop env store info.1 info.2 (sortPeersDesc info.1 store.hotPeers)
            (relaxReset env st) b with
        | LoopOut.fall st2 b2 => storeLoop env rest st2 b2
        | LoopOut.done ops st2 b2 => LoopOut.done ops st2 b2

/-- The split-candidate loop of `processSplit` for one store: skip
regions already pending or whose split ratio would not help, register
the split operator (aborting `processSplit` with `nil` on a registration
failure), flag `hasSplit`, and stop once the accumulated shed load
reaches the threshold. `Except.error` carries the state of an abort. -/
def splitCandLoop (env : CycleInput) (storeID : Nat) (maxID : Fin 6)
    (loadThreshold : ℚ) :
    List PeerInfo → ℚ → List Op → SchedState → Except SchedState (List Op × SchedState)
  | [], _, acc, st => Except.ok (acc, st)
  | p :: rest, sumLoad, acc, st =>
      if hasRegionPending st.regionPendings p.regionID then
        splitCandLoop env storeID maxID loadThreshold rest sumLoad acc st
      else
        let splitRatio := st.balanceRatio / p.loads maxID
        if 1 ≤ splitRatio then
          splitCandLoop env storeID maxID loadThreshold rest sumLoad acc st
        else
          let built := buildSplitOperation env p maxID splitRatio
          let deci : Decision := { srcStoreID := storeID, dstStoreID := storeID }
          let reg := registerPendingBatch st deci (built.1.zip built.2)
          if !reg.1 then
            Except.error reg.2
          else
            let st2 := { reg.2 with hasSplit := true }
            let sum2 := sumLoad + p.loads maxID
            if loadThreshold ≤ sum2 then
              Except.ok (acc ++ built.1, st2)
            else
              splitCandLoop env storeID maxID loadThreshold rest sum2 (acc ++ built.1) st2

/-- The store loop of `processSplit`: for every snapshot store with
recorded split candidates whose worst allowed-axis load still exceeds
tolerance, shed at least the excess via split operators. -/
def storeSplitLoop (env : CycleInput) (b : Balancer) :
    List StoreInfo → List Op → SchedState → Except SchedState (List Op × SchedState)
  | [], acc, st => Except.ok (acc, st)
  | store :: rest, acc, st =>
      match findCandidates b.splitCandidates store.id with
      | none => storeSplitLoop env b rest acc st
      | some cands =>
          let info := getMaxLoadInfo store b.allowedDimensions
          if info.2 ≤ 1 + st.balanceRatio then
            storeSplitLoop env b rest acc st
          else
            match splitCandLoop env store.id info.1 (info.2 - 1 - st.balanceRatio)
                cands 0 acc st with
            | Except.error st2 => Except.error st2
            | Except.ok (acc2, st2) => storeSplitLoop env b rest acc2 st2

/-- `processSplit`: count the no-progress cycle; exactly when the trigger
count reaches 5, emit split operators for the recorded candidates (an
aborted registration returns `nil`, keeping earlier registrations). -/
def processSplit (env : CycleInput) (st : SchedState) (b : Balancer) :
    List Op × SchedState × Balancer :=
  let st1 := { st with splitTrigeCount := st.splitTrigeCount + 1 }
  if st1.splitTrigeCount = 5 then
    match storeSplitLoop env b b.storeInfos [] st1 with
    | Except.error st2 => ([], st2, b)
    | Except.ok (ops, st2) => (ops, st2, b)
  else
    ([], st1, b)

/-- The relaxation entry after a cycle without progress: when not yet
relaxed and the cluster ratio is close to the target, set the relaxation
flag and widen the balance ratio by `allowedDeviation`. -/
def relaxEnter (st2 : SchedState) (ratio : ℚ) : SchedState :=
  if !st2.relaxBalanceCondition && decide (ratio ≤ 1 + st2.balanceRatio + allowedDeviation) then
    { st2 with relaxBalanceCondition := true,
               balanceRatio := st2.balanceRatio + allowedDeviation }
  else st2

/-- `solveMultiLoads`: one scheduling cycle on the snapshot. Sort stores
by the globally hottest axis, reset the split-candidate map, run the
store loop; if nothing was emitted, possibly enter the relaxation state,
and when the cluster ratio still exceeds tolerance run the split
fallback. -/
def solveMultiLoads (env : CycleInput) (st : SchedState) (b : Balancer) :
    List Op × SchedState × Balancer :=
  if b.skipSchedule then ([], st, b)
  else
    let sorted := sortStoresDesc (globalMaxDim b) b.storeInfos
    let b1 := { b with storeInfos := sorted, splitCandidates := [] }
    match storeLoop env sorted st b1 with
    | LoopOut.done ops st2 b2 => (ops, st2, b2)
    | LoopOut.fall st2 b2 =>
        let ratio := calcBalanceRatio b2.storeInfos b2.allowedDimensions
        let st3 := relaxEnter st2 ratio
        if 1 + st3.balanceRatio < ratio then processSplit env st3 b2
        else ([], st3, b2)

/-- The balancer-selection step of `dispatch`: rebuild the snapshot when
there is none or re-initialization was requested (clearing `needInit`
afterwards, which overwrites a `needInit` set by the stability gate),
else reuse the cached balancer. -/
def selectBalancer (env : CycleInput) (st : SchedState) : Balancer × SchedState :=
  match st.curBalancer, st.needInit with
  | some b, false => (b, st)
  | _, _ =>
      let r := newMultiBalancer env st
      (r.1, { r.2 with curBalancer := some r.1, needInit := false })

/-- Select the balancer, solve, and store the (possibly mutated)
balancer back. -/
def runWithBalancer (env : CycleInput) (st : SchedState) : List Op × SchedState :=
  let sel := selectBalancer env st
  let r := solveMultiLoads env sel.2 sel.1
  (r.1, { r.2.1 with curBalancer := some r.2.2 })

/-- The prelude of `dispatch`: read the configured balance ratio (plus
the deviation while relaxed), summarize pending influence and gc. -/
def preludeState (env : CycleInput) (st : SchedState) : SchedState :=
  summaryPendingInfluence env
    { st with balanceRatio :=
        env.hotBalanceRatio + (if st.relaxBalanceCondition then allowedDeviation else 0) }

/-- `dispatch` (the body of `Schedule`): disabled when an external mode
is active; run the prelude; wait while pending operators demand it;
otherwise run the balancer. -/
def dispatch (env : CycleInput) (st : SchedState) : List Op × SchedState :=
  if 0 < env.mode then ([], st)
  else
    let w := shouldWaitPendingOps (preludeState env st)
    if w.1 then ([], w.2) else runWithBalancer env w.2

/-- A sequence of `Schedule` cycles: the per-cycle outputs and the final
scheduler state. -/
def runCycles : List CycleInput → SchedState → List (List Op) × SchedState
  | [], st => ([], st)
  | env :: rest, st =>
      let r := dispatch env st
      let rr := runCycles rest r.2
      (r.1 :: rr.1, rr.2)

/-- An operator batch containing a migration (non-split) operator. -/
def hasMoveOp (ops : List Op) : Bool :=
  ops.any (fun op => decide (op.kind ≠ OpKind.splitRegion))

/-- An operator batch containing a split operator. -/
def hasSplitOp (ops : List Op) : Bool :=
  ops.any (fun op => decide (op.kind = OpKind.splitRegion))

/-- Number of cycles of a trace that emitted split operators. -/
def splitCycleCount (outs : List (List Op)) : Nat :=
  (outs.filter hasSplitOp).length

/-- Scheduler state from a `LoopOut`. -/
def loopOutState : LoopOut → SchedState
  | LoopOut.fall st _ => st
  | LoopOut.done _ st _ => st

/-- Balancer from a `LoopOut`. -/
def loopOutBalancer : LoopOut → Balancer
  | LoopOut.fall _ b => b
  | LoopOut.done _ _ b => b

/-- Scheduler state from a split-loop outcome. -/
def exceptState : Except SchedState (List Op × SchedState) → SchedState
  | Except.error st => st
  | Except.ok (_, st) => st

/-- Specification-side reference for `filterDstStores` with no
large-region cap: the spec's "Small regions have no such cap", i.e. pure
minimization of the post-migration load over the candidate stores. Used
to compare the source behaviour for non-large regions against the
spec's words. -/
def filterDstStoresSpecNoCap (cands : List Nat) (allowed : List (Fin 6))
    (peer : PeerInfo) (opTy : OpType) :
    List StoreInfo → Option StoreInfo × Option ℚ → Option StoreInfo × Option ℚ
  | [], acc => acc
  | store :: rest, acc =>
      let acc2 :=
        if store.id ∈ cands then
          let newLoad := loadOfMigrated allowed peer store opTy
          if ltMin newLoad acc.2 then (some store, some newLoad) else acc
        else acc
      filterDstStoresSpecNoCap cands allowed peer opTy rest acc2

/-! ### Concrete scenarios

Small fully-concrete cluster views used by the counterexamples and
witnesses. `envA` is a two-store cluster (store 1 overloaded on the
write-byte axis) where a move of region 7 to store 2 succeeds; the
variants disable parts of the pipeline. -/

/-- Literal six-axis vector. -/
def v6 (a b c d e f : ℚ) : LoadVec := ![a, b, c, d, e, f]

/-- The all-zero load vector. -/
def zeroVec : LoadVec := fun _ => 0

/-- Two stores, raw write-byte loads 300 and 100; store 1 has hot peers
for regions 7, 9, 10 (raw 120/100/60), store 2 one hot peer (region 8,
raw 95); only the write-byte axis clears the noise floor; store 2 is the
only destination candidate; all external checks succeed. -/
def envA : CycleInput :=
  { mode := 0
    hotBalanceRatio := 1/10
    now := 0
    maxZombieDuration := 100
    summarize := fun _ _ => zeroVec
    storeLoads := [(1, v6 300 0 0 0 0 0), (2, v6 100 0 0 0 0 0)]
    hotPeers := fun s =>
      if s = 1 then
        [ { regionID := 7, loads := v6 120 0 0 0 0 0, isLeader := false },
          { regionID := 9, loads := v6 100 0 0 0 0 0, isLeader := false },
          { regionID := 10, loads := v6 60 0 0 0 0 0, isLeader := false } ]
      else if s = 2 then
        [ { regionID := 8, loads := v6 95 0 0 0 0 0, isLeader := false } ]
      else []
    minExpLoads := fun _ => 1
    regionOK := fun _ => true
    candidateStores := fun _ _ => [2]
    buildOK := fun _ _ => true }

/-- The empty initial scheduler state. -/
def st0 : SchedState :=
  { pendings := []
    regionPendings := []
    pendingSums := fun _ => zeroVec
    balanceRatio := 0
    relaxBalanceCondition := false
    splitTrigeCount := 0
    hasSplit := false
    needInit := false
    curBalancer := none }

/-- `envA` with a failing operator builder. -/
def envBuildFail : CycleInput :=
  { envA with buildOK := fun _ _ => false }

/-- `envA` with no destination candidates (every migration attempt ends
in the split-candidate list). -/
def envNoDst : CycleInput :=
  { envA with candidateStores := fun _ _ => [] }

/-- A live (unfinished) operator for region 7. -/
def opLive : Op :=
  { regionID := 7, kind := OpKind.movePeer, startTime := 0, finishTime := 0, isEnd := false }

/-- An operator that started at 0 and finished at 6. -/
def opC5 : Op :=
  { regionID := 1, kind := OpKind.movePeer, startTime := 0, finishTime := 6, isEnd := true }

/-- State whose cached balancer is the fresh `envA` snapshot while
region 7 already has a pending operator: the decision loop will pick
region 7 and the ledger will refuse it. -/
def stConflict : SchedState :=
  { st0 with
    regionPendings := [(7, opLive)]
    curBalancer := some (newMultiBalancer envA st0).1 }

/-- A non-leader peer small on the only allowed axis (axis 0) but large
on the read-byte axis 3, which is not allowed. -/
def peerMixed : PeerInfo :=
  { regionID := 3, storeID := 1, loads := v6 (1/20) 0 0 (1/2) 0 0,
    rawLoads := v6 (1/20) 0 0 (1/2) 0 0, isLeader := false }

/-- A destination store already above tolerance on axis 0. -/
def dstHot : StoreInfo :=
  { id := 2, loads := v6 (3/2) 0 0 0 0 0, hotPeers := [] }

/-- Two equal stores with a unit of pending influence charged to store 1. -/
def envPend : CycleInput :=
  { envA with storeLoads := [(1, v6 1 0 0 0 0 0), (2, v6 1 0 0 0 0 0)] }

/-- State carrying the nonzero pending sums for `envPend`. -/
def stPend : SchedState :=
  { st0 with pendingSums := fun s => if s = 1 then v6 1 0 0 0 0 0 else zeroVec }

/-- Relaxed state with a live pending operator. -/
def stRelaxPend : SchedState :=
  { st0 with relaxBalanceCondition := true, regionPendings := [(7, opLive)] }

/-- Initial state with a nonzero split trigger count. -/
def stCnt3 : SchedState :=
  { st0 with splitTrigeCount := 3 }

/-- A peer large on the only allowed axis. -/
def peerBig : PeerInfo :=
  { regionID := 7, storeID := 1, loads := v6 (3/5) 0 0 0 0 0,
    rawLoads := v6 120 0 0 0 0 0, isLeader := false }

/-- A destination store at half the average load on axis 0. -/
def dstMid : StoreInfo :=
  { id := 2, loads := v6 (1/2) 0 0 0 0 0, hotPeers := [] }

/-! ### Helper lemmas -/

theorem list_sum_map_add {α : Type} (l : List α) (f g : α → ℚ) :
    (l.map (fun x => f x + g x)).sum = (l.map f).sum + (l.map g).sum := by
  induction l with
  | nil => simp
  | cons a t ih => simp [ih]; ring

theorem list_sum_map_div {α : Type} (l : List α) (f : α → ℚ) (c : ℚ) :
    (l.map (fun x => f x / c)).sum = (l.map f).sum / c := by
  induction l with
  | nil => simp
  | cons a t ih => simp [ih, add_div]

/-- A capped scan never records a minimum above `1 + ratio`. -/
theorem filterDstStores_cap (cands : List Nat) (allowed : List (Fin 6)) (ratio : ℚ)
    (peer : PeerInfo) (opTy : OpType) :
    ∀ (l : List StoreInfo) (acc : Option StoreInfo × Option ℚ),
      (∀ m, acc.2 = some m → m ≤ 1 + ratio) →
      ∀ m, (filterDstStores cands allowed ratio peer opTy true l acc).2 = some m →
        m ≤ 1 + ratio := by
  intro l
  induction l with
  | nil => intro acc hacc m hm; exact hacc m hm
  | cons s t ih =>
      intro acc hacc m hm
      simp only [filterDstStores] at hm
      refine ih _ ?_ m hm
      split
      · split
        · rename_i hcond
          simp only [Bool.not_true, Bool.or_false, Bool.and_eq_true, decide_eq_true_eq] at hcond
          intro m2 hm2
          simp only at hm2
          cases hm2
          exact hcond.1
        · exact hacc
      · exact hacc

/-- Without the large-region flag the scan coincides with the spec's
cap-free minimization. -/
theorem filterDstStores_noCap (cands : List Nat) (allowed : List (Fin 6)) (ratio : ℚ)
    (peer : PeerInfo) (opTy : OpType) :
    ∀ (l : List StoreInfo) (acc : Option StoreInfo × Option ℚ),
      filterDstStores cands allowed ratio peer opTy false l acc
        = filterDstStoresSpecNoCap cands allowed peer opTy l acc := by
  intro l
  induction l with
  | nil => intro acc; rfl
  | cons s t ih =>
      intro acc
      simp only [filterDstStores, filterDstStoresSpecNoCap, Bool.not_false, Bool.or_true,
        Bool.true_and]
      rw [ih]

/-! ### Claims -/

/-- C2 counterexample: the claim asserts that a read dimension
(`maxID = 3`) produces `splitType = 1`; the code produces `splitType = 0`
(its own comment says "for splitting: read 0, write 1"). -/
theorem claim_C2_counterexample :
    (convertToSplitInfo 3).2 = 0 ∧ ¬((convertToSplitInfo 3).2 = 1) := by
  decide

/-- C2 (amended): for every dimension id `maxID` in 0..5 the split
parameters satisfy `splitType = 1 − maxID/3` (integer division), so a
write dimension (0..2) produces `splitType = 1` and a read dimension
(3..5) produces `splitType = 0`; and `splitDim = 0` iff
`maxID mod 3 = 0`, else 1. -/
theorem claim_C2 (maxID : Nat) (h : maxID < 6) :
    (convertToSplitInfo maxID).2 = 1 - maxID / 3
    ∧ (maxID < 3 → (convertToSplitInfo maxID).2 = 1)
    ∧ (3 ≤ maxID → (convertToSplitInfo maxID).2 = 0)
    ∧ (convertToSplitInfo maxID).1 = (if maxID % 3 = 0 then 0 else 1) := by
  interval_cases maxID <;> exact ⟨by decide, by decide, by decide, by decide⟩

/-- C2 witness: the amended statement evaluated at `maxID = 0`. -/
theorem claim_C2_witness :
    (0 : Nat) < 6 ∧ (convertToSplitInfo 0).2 = 1 - 0 / 3 :=
  ⟨by decide, (claim_C2 0 (by decide)).1⟩

/-- C5 counterexample: an operator that started at time 0 and finished at
time 6 is removed by gc at time 8 with a zombie window of 5, although it
finished only 2 time units ago — the claim says it is retained. The gc
window is measured from the operator's start, not its finish. -/
theorem claim_C5_counterexample :
    gcRegionPendings 8 5 [(1, opC5)] = []
    ∧ opC5.isEnd = true ∧ 8 - opC5.finishTime < 5 ∧ opC5.startTime + 5 < 8 := by
  decide

/-- C5 (amended): gc removes a region-pending entry exactly when its
operator has ended and more than `max_zombie_duration` has elapsed since
the operator started. -/
theorem claim_C5 (now zombie : ℚ) (l : List (Nat × Op)) (r : Nat) (op : Op)
    (hmem : (r, op) ∈ l) :
    ((r, op) ∈ gcRegionPendings now zombie l
      ↔ ¬(op.isEnd = true ∧ op.startTime + zombie < now)) := by
  unfold gcRegionPendings
  rw [List.mem_filter]
  simp only [hmem, true_and]
  cases h : op.isEnd <;> simp [h]

/-- C5 witness: a live operator is retained by gc. -/
theorem claim_C5_witness :
    ((1, opLive) ∈ [(1, opLive)])
    ∧ ((1, opLive) ∈ gcRegionPendings 20 100 [(1, opLive)]) :=
  ⟨by simp, (claim_C5 20 100 [(1, opLive)] 1 opLive (by simp)).mpr (by decide)⟩

/-- C8 counterexample: two stores with raw load 1 each on axis 0 and one
unit of pending influence charged to store 1: the axis mean is 1 > 0,
but the normalized store loads sum to 3, not to the store count 2 —
pending influence is added after the mean is taken. -/
theorem claim_C8_counterexample :
    0 < expLoadsOf envPend.storeLoads 0
    ∧ ((newMultiBalancer envPend stPend).1.storeInfos.map (fun si => si.loads 0)).sum = 3
    ∧ envPend.storeLoads.length = 2
    ∧ (3 : ℚ) ≠ 2 := by
  decide

/-- C8 (amended): for every snapshot built by `initHotPeerInfo` (inside
`newMultiBalancer`) and every axis with positive cluster mean, the
normalized store loads sum to the number of stores plus the axis's total
pending influence divided by the mean; in particular they sum to the
store count exactly when no pending influence is charged on the axis. -/
theorem claim_C8 (env : CycleInput) (st : SchedState) (i : Fin 6)
    (hallow : ¬(allowedDimsOf env.minExpLoads (expLoadsOf env.storeLoads) = []))
    (hpos : 0 < expLoadsOf env.storeLoads i) :
    ((newMultiBalancer env st).1.storeInfos.map (fun si => si.loads i)).sum
      = (env.storeLoads.length : ℚ)
        + (env.storeLoads.map (fun s => st.pendingSums s.1 i)).sum
          / expLoadsOf env.storeLoads i := by
  have hne : expLoadsOf env.storeLoads i ≠ 0 := ne_of_gt hpos
  have hlen : (env.storeLoads.length : ℚ) ≠ 0 := by
    intro h0
    apply hne
    unfold expLoadsOf
    rw [h0, div_zero]
  have hS : (env.storeLoads.map (fun s => s.2 i)).sum
      = expLoadsOf env.storeLoads i * (env.storeLoads.length : ℚ) := by
    unfold expLoadsOf
    field_simp
  simp only [newMultiBalancer]
  rw [if_neg hallow]
  simp only [List.map_map]
  have hcomp : ((fun si => si.loads i) ∘ mkStoreInfo env (expLoadsOf env.storeLoads) st.pendingSums)
      = fun s => (s.2 i + st.pendingSums s.1 i) / expLoadsOf env.storeLoads i := rfl
  rw [hcomp, list_sum_map_div, list_sum_map_add, hS]
  field_simp
  ring

/-- C8 witness: the amended statement evaluated on `envPend` with no
pending influence (sums to the store count). -/
theorem claim_C8_witness :
    ((newMultiBalancer envPend st0).1.storeInfos.map (fun si => si.loads 0)).sum
      = (envPend.storeLoads.length : ℚ)
        + (envPend.storeLoads.map (fun s => st0.pendingSums s.1 0)).sum
          / expLoadsOf envPend.storeLoads 0 :=
  claim_C8 envPend st0 0 (by decide) (by decide)

/-- C7 counterexample: a peer whose read-byte axis (3) exceeds the
balance ratio while the only allowed axis is 0: the code classifies it as
not large (it only scans allowed axes), and the destination scan accepts
a store with post-migration load 31/20 > 1 + ratio — the claim requires
the cap for this peer. -/
theorem claim_C7_counterexample :
    isLargeRegion [(0 : Fin 6)] peerMixed (1/10) = false
    ∧ (1/10 : ℚ) < peerMixed.loads 3
    ∧ (filterDstStores [2] [(0 : Fin 6)] (1/10) peerMixed OpType.movePeer
        (isLargeRegion [(0 : Fin 6)] peerMixed (1/10)) [dstHot] (none, none)).2 = some (31/20)
    ∧ 1 + (1/10 : ℚ) < 31/20 := by
  decide

/-- C7 (amended): a peer is large iff some allowed axis of its load
exceeds the balance ratio; a large peer's destination scan only records
minima at most `1 + balanceRatio`; and for a non-large peer the scan is
exactly the cap-free minimization the spec describes. -/
theorem claim_C7 :
    (∀ (allowed : List (Fin 6)) (peer : PeerInfo) (ratio : ℚ),
        isLargeRegion allowed peer ratio = true ↔ ∃ i ∈ allowed, ratio < peer.loads i)
    ∧ (∀ (cands : List Nat) (allowed : List (Fin 6)) (ratio : ℚ) (peer : PeerInfo)
        (opTy : OpType) (l : List StoreInfo) (m : ℚ),
        (filterDstStores cands allowed ratio peer opTy true l (none, none)).2 = some m →
        m ≤ 1 + ratio)
    ∧ (∀ (cands : List Nat) (allowed : List (Fin 6)) (ratio : ℚ) (peer : PeerInfo)
        (opTy : OpType) (l : List StoreInfo),
        filterDstStores cands allowed ratio peer opTy false l (none, none)
          = filterDstStoresSpecNoCap cands allowed peer opTy l (none, none)) := by
  refine ⟨?_, ?_, ?_⟩
  · intro allowed peer ratio
    simp [isLargeRegion, List.any_eq_true]
  · intro cands allowed ratio peer opTy l m hm
    exact filterDstStores_cap cands allowed ratio peer opTy l (none, none) (by simp) m hm
  · intro cands allowed ratio peer opTy l
    exact filterDstStores_noCap cands allowed ratio peer opTy l (none, none)

/-- C7 witness: the large-peer cap applied to a concrete scan that
records destination `dstMid` with post-load 11/10. -/
theorem claim_C7_witness :
    (11/10 : ℚ) ≤ 1 + 1/10 :=
  claim_C7.2.1 [2] [(0 : Fin 6)] (1/10) peerBig OpType.movePeer [dstMid] (11/10) (by decide)

/-- Registration failure leaves the scheduler state untouched. -/
theorem addPendingInfluence_conflict (st : SchedState) (op : Op) (deci : Decision)
    (infl : LoadVec) (h : hasRegionPending st.regionPendings op.regionID = true) :
    addPendingInfluence st op deci infl = (false, st) := by
  unfold addPendingInfluence
  rw [if_pos h]

/-- A successful registration records the operator's region. -/
theorem addPendingInfluence_registers (st : SchedState) (op : Op) (deci : Decision)
    (infl : LoadVec) (h : (addPendingInfluence st op deci infl).1 = true) :
    hasRegionPending (addPendingInfluence st op deci infl).2.regionPendings
      op.regionID = true := by
  by_cases hc : hasRegionPending st.regionPendings op.regionID = true
  · rw [addPendingInfluence_conflict st op deci infl hc] at h
    simp at h
  · unfold addPendingInfluence
    rw [if_neg hc]
    simp [hasRegionPending]

/-- Registration can only add region-pending entries. -/
theorem addPendingInfluence_mono (st : SchedState) (op : Op) (deci : Decision)
    (infl : LoadVec) (r : Nat) (h : hasRegionPending st.regionPendings r = true) :
    hasRegionPending (addPendingInfluence st op deci infl).2.regionPendings r = true := by
  unfold addPendingInfluence
  split
  · exact h
  · simp only [hasRegionPending, List.any_cons] at h ⊢
    rw [h]
    simp

/-- Registration never touches the split trigger count. -/
theorem addPendingInfluence_counter (st : SchedState) (op : Op) (deci : Decision)
    (infl : LoadVec) :
    (addPendingInfluence st op deci infl).2.splitTrigeCount = st.splitTrigeCount := by
  unfold addPendingInfluence
  split <;> rfl

/-- Batch registration never touches the split trigger count. -/
theorem registerPendingBatch_counter (deci : Decision) :
    ∀ (batch : List (Op × LoadVec)) (st : SchedState),
      (registerPendingBatch st deci batch).2.splitTrigeCount = st.splitTrigeCount := by
  intro batch
  induction batch with
  | nil => intro st; rfl
  | cons hd t ih =>
      intro st
      obtain ⟨op, infl⟩ := hd
      simp only [registerPendingBatch]
      split
      · rw [ih]
        exact addPendingInfluence_counter st op deci infl
      · exact addPendingInfluence_counter st op deci infl

/-- Batch registration only adds region-pending entries. -/
theorem registerPendingBatch_mono (deci : Decision) (r : Nat) :
    ∀ (batch : List (Op × LoadVec)) (st : SchedState),
      hasRegionPending st.regionPendings r = true →
      hasRegionPending (registerPendingBatch st deci batch).2.regionPendings r = true := by
  intro batch
  induction batch with
  | nil => intro st h; exact h
  | cons hd t ih =>
      intro st h
      obtain ⟨op, infl⟩ := hd
      simp only [registerPendingBatch]
      split
      · exact ih _ (addPendingInfluence_mono st op deci infl r h)
      · exact addPendingInfluence_mono st op deci infl r h

/-- A fully successful batch registration records every operator of the
batch. -/
theorem registerPendingBatch_registers (deci : Decision) :
    ∀ (batch : List (Op × LoadVec)) (st : SchedState),
      (registerPendingBatch st deci batch).1 = true →
      ∀ p ∈ batch,
        hasRegionPending (registerPendingBatch st deci batch).2.regionPendings
          p.1.regionID = true := by
  intro batch
  induction batch with
  | nil => intro st _ p hp; cases hp
  | cons hd t ih =>
      intro st h p hp
      obtain ⟨op, infl⟩ := hd
      by_cases hr : (addPendingInfluence st op deci infl).1 = true
      · have e : registerPendingBatch st deci ((op, infl) :: t)
            = registerPendingBatch (addPendingInfluence st op deci infl).2 deci t := by
          simp [registerPendingBatch, hr]
        rw [e] at h ⊢
        rcases List.mem_cons.mp hp with hph | hpt
        · subst hph
          exact registerPendingBatch_mono deci op.regionID t _
            (addPendingInfluence_registers st op deci infl hr)
        · exact ih _ h p hpt
      · have e : (registerPendingBatch st deci ((op, infl) :: t)).1 = false := by
          simp [registerPendingBatch, hr]
        rw [h] at e
        simp at e

/-- The operator builder returns a single-operator batch when it
succeeds. -/
theorem buildOperators_shape (env : CycleInput) (cur : Decision) (r : Nat)
    (pr : List Op × List LoadVec) (h : buildOperators env cur r = some pr) :
    pr = ([{ regionID := r, kind := kindOf cur.opTy, startTime := env.now,
             finishTime := 0, isEnd := false }],
          [if cur.opTy = OpType.transferLeader then
             fun i => if i.val ≤ 2 then 0 else cur.srcPeerStat i
           else cur.srcPeerStat]) := by
  unfold buildOperators at h
  split at h
  · exact (Option.some.inj h).symm
  · cases h

/-- Built migration operators are never split operators. -/
theorem kindOf_ne_split (t : OpType) : kindOf t ≠ OpKind.splitRegion := by
  cases t <;> simp [kindOf]

/-- A nonempty pending set in a relaxed or post-split state makes the
cycle wait. -/
theorem shouldWait_relax (st : SchedState) (h1 : ¬(st.regionPendings = []))
    (h2 : st.relaxBalanceCondition = true) :
    shouldWaitPendingOps st = (true, st) := by
  unfold shouldWaitPendingOps
  rw [if_neg h1, if_pos]
  rw [h2]
  simp

/-- Combined facts about the peer loop: a fall-through leaves the
scheduler state untouched and only grows the split-candidate map, and a
returned batch resets the split trigger when nonempty, contains only
migration operators, is fully registered, and only grows the
scheduled-regions set. -/
theorem peerLoop_facts (env : CycleInput) (store : StoreInfo) (maxID : Fin 6)
    (maxLoad : ℚ) :
    ∀ (peers : List PeerInfo) (st : SchedState) (b : Balancer),
      (∀ st2 b2, peerLoop env store maxID maxLoad peers st b = LoopOut.fall st2 b2 →
          st2 = st ∧ b2.scheduledRegions = b.scheduledRegions)
      ∧ (∀ ops st2 b2, peerLoop env store maxID maxLoad peers st b = LoopOut.done ops st2 b2 →
          (st2.splitTrigeCount = st.splitTrigeCount ∨ st2.splitTrigeCount = 0)
          ∧ (¬(ops = []) → st2.splitTrigeCount = 0)
          ∧ (∀ op ∈ ops, op.kind ≠ OpKind.splitRegion
              ∧ hasRegionPending st2.regionPendings op.regionID = true)
          ∧ (∀ r ∈ b.scheduledRegions, r ∈ b2.scheduledRegions)) := by
  intro peers
  induction peers with
  | nil =>
      intro st b
      constructor
      · intro st2 b2 h
        cases h
        exact ⟨rfl, rfl⟩
      · intro ops st2 b2 h
        cases h
  | cons p rest ih =>
      intro st b
      constructor
      · intro st2 b2 h
        simp only [peerLoop] at h
        split at h
        · exact (ih st b).1 st2 b2 h
        · split at h
          · cases h
            exact ⟨rfl, rfl⟩
          · split at h
            · exact (ih st (addSplitCandidate b store.id p)).1 st2 b2 h
            · split at h
              · exact (ih st b).1 st2 b2 h
              · split at h
                · exact (ih st (addSplitCandidate b store.id p)).1 st2 b2 h
                · split at h <;> cases h
      · intro ops st2 b2 h
        simp only [peerLoop] at h
        split at h
        · exact (ih st b).2 ops st2 b2 h
        · split at h
          · cases h
          · split at h
            · exact (ih st (addSplitCandidate b store.id p)).2 ops st2 b2 h
            · split at h
              · exact (ih st b).2 ops st2 b2 h
              · split at h
                · exact (ih st (addSplitCandidate b store.id p)).2 ops st2 b2 h
                · split at h
                  · cases h
                    refine ⟨Or.inl (registerPendingBatch_counter _ _ _), ?_, ?_, ?_⟩
                    · intro hne
                      exact absurd rfl hne
                    · intro op hop
                      cases hop
                    · intro r hr
                      exact hr
                  · rename_i dst opTy hpick hreg
                    cases h
                    refine ⟨Or.inr rfl, fun _ => rfl, ?_, ?_⟩
                    · intro op hop
                      cases hb : buildOperators env
                          { srcStoreID := store.id, dstStoreID := dst.id,
                            opTy := opTy, srcPeerStat := p.rawLoads } p.regionID with
                      | none =>
                          rw [hb] at hop
                          simp at hop
                      | some pr =>
                          have hsh := buildOperators_shape env _ _ pr hb
                          subst hsh
                          rw [hb] at hop hreg
                          simp at hop hreg
                          subst hop
                          refine ⟨kindOf_ne_split _, ?_⟩
                          have := registerPendingBatch_registers _ _ _ hreg _
                            (List.mem_singleton_self _)
                          exact this
                    · intro r hr
                      exact List.mem_cons_of_mem _ hr

/-- The relaxation reset does not change the split trigger count. -/
theorem relaxReset_counter (env : CycleInput) (st : SchedState) :
    (relaxReset env st).splitTrigeCount = st.splitTrigeCount := by
  unfold relaxReset
  split <;> rfl

/-- Combined facts about the store loop, lifted from the peer loop; the
mid-loop relaxation reset does not change the split trigger count, the
region pendings or the scheduled regions. -/
theorem storeLoop_facts (env : CycleInput) :
    ∀ (stores : List StoreInfo) (st : SchedState) (b : Balancer),
      (∀ st2 b2, storeLoop env stores st b = LoopOut.fall st2 b2 →
          st2.splitTrigeCount = st.splitTrigeCount
          ∧ b2.scheduledRegions = b.scheduledRegions)
      ∧ (∀ ops st2 b2, storeLoop env stores st b = LoopOut.done ops st2 b2 →
          (st2.splitTrigeCount = st.splitTrigeCount ∨ st2.splitTrigeCount = 0)
          ∧ (¬(ops = []) → st2.splitTrigeCount = 0)
          ∧ (∀ op ∈ ops, op.kind ≠ OpKind.splitRegion
              ∧ hasRegionPending st2.regionPendings op.regionID = true)
          ∧ (∀ r ∈ b.scheduledRegions, r ∈ b2.scheduledRegions)) := by
  intro stores
  induction stores with
  | nil =>
      intro st b
      constructor
      · intro st2 b2 h
        cases h
        exact ⟨rfl, rfl⟩
      · intro ops st2 b2 h
        cases h
  | cons store rest ih =>
      intro st b
      constructor
      · intro st2 b2 h
        simp only [storeLoop] at h
        split at h
        · exact (ih st b).1 st2 b2 h
        · split at h
          · rename_i hpl
            obtain ⟨he, hb⟩ := (peerLoop_facts env store _ _ _ _ _).1 _ _ hpl
            subst he
            obtain ⟨hc, hs⟩ := (ih _ _).1 st2 b2 h
            rw [relaxReset_counter] at hc
            exact ⟨hc, hs.trans hb⟩
          · cases h
      · intro ops st2 b2 h
        simp only [storeLoop] at h
        split at h
        · exact (ih st b).2 ops st2 b2 h
        · split at h
          · rename_i hpl
            obtain ⟨he, hb⟩ := (peerLoop_facts env store _ _ _ _ _).1 _ _ hpl
            subst he
            obtain ⟨hc, hne, hk, hs⟩ := (ih _ _).2 ops st2 b2 h
            rw [relaxReset_counter] at hc
            exact ⟨hc, hne, hk, fun r hr => by rw [← hb] at hr; exact hs r hr⟩
          · rename_i hpl
            cases h
            obtain ⟨hc, hne, hk, hs⟩ := (peerLoop_facts env store _ _ _ _ _).2 _ _ _ hpl
            rw [relaxReset_counter] at hc
            exact ⟨hc, hne, hk, hs⟩

/-- A batch has a split operator iff one of its operators is one. -/
theorem hasSplitOp_iff (ops : List Op) :
    hasSplitOp ops = true ↔ ∃ op ∈ ops, op.kind = OpKind.splitRegion := by
  simp [hasSplitOp]

/-- A batch has a migration operator iff one of its operators is not a
split. -/
theorem hasMoveOp_iff (ops : List Op) :
    hasMoveOp ops = true ↔ ∃ op ∈ ops, op.kind ≠ OpKind.splitRegion := by
  simp [hasMoveOp]

/-- Combined facts about the split-candidate loop: it preserves the split
trigger count, only grows the region pendings, and every emitted
operator either was already accumulated or is a registered split
operator. -/
theorem splitCandLoop_facts (env : CycleInput) (storeID : Nat) (maxID : Fin 6)
    (th : ℚ) :
    ∀ (cands : List PeerInfo) (sumLoad : ℚ) (acc : List Op) (st : SchedState),
      (∀ stE, splitCandLoop env storeID maxID th cands sumLoad acc st = Except.error stE →
          stE.splitTrigeCount = st.splitTrigeCount)
      ∧ (∀ ops st2,
          splitCandLoop env storeID maxID th cands sumLoad acc st = Except.ok (ops, st2) →
          st2.splitTrigeCount = st.splitTrigeCount
          ∧ (∀ r, hasRegionPending st.regionPendings r = true →
              hasRegionPending st2.regionPendings r = true)
          ∧ (∀ op ∈ ops, op ∈ acc
              ∨ (op.kind = OpKind.splitRegion
                  ∧ hasRegionPending st2.regionPendings op.regionID = true))) := by
  intro cands
  induction cands with
  | nil =>
      intro sumLoad acc st
      constructor
      · intro stE h
        cases h
      · intro ops st2 h
        cases h
        exact ⟨rfl, fun r hr => hr, fun op hop => Or.inl hop⟩
  | cons p rest ih =>
      intro sumLoad acc st
      constructor
      · intro stE h
        simp only [splitCandLoop] at h
        split at h
        · exact (ih sumLoad acc st).1 stE h
        · split at h
          · exact (ih sumLoad acc st).1 stE h
          · split at h
            · cases h
              exact registerPendingBatch_counter _ _ _
            · rename_i hreg
              split at h
              · cases h
              · have := (ih _ _ _).1 stE h
                rw [this]
                exact registerPendingBatch_counter _ _ _
      · intro ops st2 h
        simp only [splitCandLoop] at h
        split at h
        · exact (ih sumLoad acc st).2 ops st2 h
        · split at h
          · exact (ih sumLoad acc st).2 ops st2 h
          · split at h
            · cases h
            · rename_i hreg
              have hregt : (registerPendingBatch st
                  { srcStoreID := storeID, dstStoreID := storeID }
                  ((buildSplitOperation env p maxID (st.balanceRatio / p.loads maxID)).1.zip
                    (buildSplitOperation env p maxID (st.balanceRatio / p.loads maxID)).2)).1
                  = true := by
                simpa using hreg
              have hpend : hasRegionPending
                  (registerPendingBatch st
                    { srcStoreID := storeID, dstStoreID := storeID }
                    ((buildSplitOperation env p maxID (st.balanceRatio / p.loads maxID)).1.zip
                      (buildSplitOperation env p maxID
                        (st.balanceRatio / p.loads maxID)).2)).2.regionPendings
                  p.regionID = true := by
                have := registerPendingBatch_registers _ _ _ hregt
                  (mkSplitOp env p maxID (st.balanceRatio / p.loads maxID),
                    (fun _ => 0 : LoadVec))
                  (List.mem_singleton_self _)
                exact this
              split at h
              · cases h
                refine ⟨registerPendingBatch_counter _ _ _, ?_, ?_⟩
                · intro r hr
                  exact registerPendingBatch_mono _ _ _ _ hr
                · intro op hop
                  rcases List.mem_append.mp hop with hacc | hone
                  · exact Or.inl hacc
                  · rcases List.mem_singleton.mp hone with rfl
                    exact Or.inr ⟨rfl, hpend⟩
              · obtain ⟨hc, hmono, hmem⟩ := (ih _ _ _).2 ops st2 h
                refine ⟨?_, ?_, ?_⟩
                · rw [hc]
                  exact registerPendingBatch_counter _ _ _
                · intro r hr
                  exact hmono r (registerPendingBatch_mono _ _ _ _ hr)
                · intro op hop
                  rcases hmem op hop with hacc2 | hsplit
                  · rcases List.mem_append.mp hacc2 with hacc | hone
                    · exact Or.inl hacc
                    · rcases List.mem_singleton.mp hone with rfl
                      exact Or.inr ⟨rfl, hmono _ hpend⟩
                  · exact Or.inr hsplit

/-- Combined facts about the per-store split loop. -/
theorem storeSplitLoop_facts (env : CycleInput) (b : Balancer) :
    ∀ (stores : List StoreInfo) (acc : List Op) (st : SchedState),
      (∀ stE, storeSplitLoop env b stores acc st = Except.error stE →
          stE.splitTrigeCount = st.splitTrigeCount)
      ∧ (∀ ops st2, storeSplitLoop env b stores acc st = Except.ok (ops, st2) →
          st2.splitTrigeCount = st.splitTrigeCount
          ∧ (∀ r, hasRegionPending st.regionPendings r = true →
              hasRegionPending st2.regionPendings r = true)
          ∧ (∀ op ∈ ops, op ∈ acc
              ∨ (op.kind = OpKind.splitRegion
                  ∧ hasRegionPending st2.regionPendings op.regionID = true))) := by
  intro stores
  induction stores with
  | nil =>
      intro acc st
      constructor
      · intro stE h
        cases h
      · intro ops st2 h
        cases h
        exact ⟨rfl, fun r hr => hr, fun op hop => Or.inl hop⟩
  | cons store rest ih =>
      intro acc st
      constructor
      · intro stE h
        simp only [storeSplitLoop] at h
        split at h
        · exact (ih acc st).1 stE h
        · split at h
          · exact (ih acc st).1 stE h
          · split at h
            · rename_i hcl
              cases h
              exact (splitCandLoop_facts env store.id _ _ _ _ _ _).1 _ hcl
            · rename_i acc2 st2 hcl
              have h1 := (splitCandLoop_facts env store.id _ _ _ _ _ _).2 _ _ hcl
              have h2 := (ih acc2 st2).1 stE h
              rw [h2, h1.1]
      · intro ops st2 h
        simp only [storeSplitLoop] at h
        split at h
        · exact (ih acc st).2 ops st2 h
        · split at h
          · exact (ih acc st).2 ops st2 h
          · split at h
            · cases h
            · rename_i acc2 stM hcl
              obtain ⟨hcc, hcmono, hcmem⟩ :=
                (splitCandLoop_facts env store.id _ _ _ _ _ _).2 _ _ hcl
              obtain ⟨hic, himono, himem⟩ := (ih acc2 stM).2 ops st2 h
              refine ⟨by rw [hic, hcc], ?_, ?_⟩
              · intro r hr
                exact himono r (hcmono r hr)
              · intro op hop
                rcases himem op hop with hacc2 | hsplit
                · rcases hcmem op hacc2 with hacc | hsp
                  · exact Or.inl hacc
                  · exact Or.inr ⟨hsp.1, himono _ hsp.2⟩
                · exact Or.inr hsplit

/-- Combined facts about `processSplit`: it leaves the balancer alone,
increments the split trigger count by exactly one, emits only when the
incremented count reaches 5, and every emitted operator is a registered
split operator. -/
theorem processSplit_facts (env : CycleInput) (st : SchedState) (b : Balancer) :
    (processSplit env st b).2.2 = b
    ∧ (processSplit env st b).2.1.splitTrigeCount = st.splitTrigeCount + 1
    ∧ (¬((processSplit env st b).1 = []) → st.splitTrigeCount + 1 = 5)
    ∧ (∀ op ∈ (processSplit env st b).1,
        op.kind = OpKind.splitRegion
        ∧ hasRegionPending (processSplit env st b).2.1.regionPendings
            op.regionID = true) := by
  simp only [processSplit]
  split
  · rename_i h5
    split
    · rename_i stE hss
      have h1 := (storeSplitLoop_facts env b b.storeInfos [] _).1 _ hss
      refine ⟨rfl, by rw [h1], ?_, ?_⟩
      · intro hne
        exact absurd rfl hne
      · intro op hop
        cases hop
    · rename_i ops st2 hss
      obtain ⟨hc, _, hmem⟩ := (storeSplitLoop_facts env b b.storeInfos [] _).2 _ _ hss
      refine ⟨rfl, by rw [hc], fun _ => h5, ?_⟩
      intro op hop
      rcases hmem op hop with hacc | hsp
      · cases hacc
      · exact hsp
  · refine ⟨rfl, rfl, ?_, ?_⟩
    · intro hne
      exact absurd rfl hne
    · intro op hop
      cases hop

/-- Combined facts about `solveMultiLoads`: the split trigger count is
preserved, incremented by one, or reset to zero; split operators are
emitted only when the incremented count reaches 5; a cycle emitting a
migration operator resets the count; every emitted operator is
registered in the resulting state; and the scheduled-regions set only
grows. -/
theorem solveMultiLoads_facts (env : CycleInput) (st : SchedState) (b : Balancer) :
    ((solveMultiLoads env st b).2.1.splitTrigeCount = st.splitTrigeCount
      ∨ (solveMultiLoads env st b).2.1.splitTrigeCount = st.splitTrigeCount + 1
      ∨ (solveMultiLoads env st b).2.1.splitTrigeCount = 0)
    ∧ (hasSplitOp (solveMultiLoads env st b).1 = true →
        st.splitTrigeCount = 4
        ∧ (solveMultiLoads env st b).2.1.splitTrigeCount = 5)
    ∧ (hasMoveOp (solveMultiLoads env st b).1 = true →
        (solveMultiLoads env st b).2.1.splitTrigeCount = 0)
    ∧ (∀ op ∈ (solveMultiLoads env st b).1,
        hasRegionPending (solveMultiLoads env st b).2.1.regionPendings
          op.regionID = true)
    ∧ (∀ r ∈ b.scheduledRegions, r ∈ (solveMultiLoads env st b).2.2.scheduledRegions) := by
  simp only [solveMultiLoads]
  split
  · refine ⟨Or.inl rfl, ?_, ?_, ?_, ?_⟩
    · intro hc
      simp [hasSplitOp] at hc
    · intro hc
      simp [hasMoveOp] at hc
    · intro op hop
      cases hop
    · intro r hr
      exact hr
  · split
    · rename_i ops st2 b2 hsl
      obtain ⟨hc, hne, hk, hs⟩ := (storeLoop_facts env _ _ _).2 ops st2 b2 hsl
      refine ⟨?_, ?_, ?_, ?_, ?_⟩
      · rcases hc with hc | hc
        · exact Or.inl hc
        · exact Or.inr (Or.inr hc)
      · intro hsp
        obtain ⟨op, hop, hkop⟩ := (hasSplitOp_iff ops).mp hsp
        exact absurd hkop (hk op hop).1
      · intro hmv
        apply hne
        intro he
        rw [he] at hmv
        simp [hasMoveOp] at hmv
      · intro op hop
        exact (hk op hop).2
      · exact hs
    · rename_i st2 b2 hsl
      obtain ⟨hc, hsched⟩ := (storeLoop_facts env _ _ _).1 st2 b2 hsl
      have hcx : (relaxEnter st2
          (calcBalanceRatio b2.storeInfos b2.allowedDimensions)).splitTrigeCount
          = st.splitTrigeCount := by
        unfold relaxEnter
        split
        · exact hc
        · exact hc
      split
      · obtain ⟨hpb, hpc, hpe, hpk⟩ := processSplit_facts env
          (relaxEnter st2 (calcBalanceRatio b2.storeInfos b2.allowedDimensions)) b2
        refine ⟨?_, ?_, ?_, ?_, ?_⟩
        · refine Or.inr (Or.inl ?_)
          rw [hpc, hcx]
        · intro hsp
          have hnonempty : ¬((processSplit env
              (relaxEnter st2 (calcBalanceRatio b2.storeInfos b2.allowedDimensions))
              b2).1 = []) := by
            intro he
            rw [he] at hsp
            simp [hasSplitOp] at hsp
          have h5 := hpe hnonempty
          rw [hcx] at h5
          constructor
          · omega
          · rw [hpc, hcx]
            omega
        · intro hmv
          obtain ⟨op, hop, hkop⟩ := (hasMoveOp_iff _).mp hmv
          exact absurd (hpk op hop).1 hkop
        · intro op hop
          exact (hpk op hop).2
        · intro r hr
          rw [hpb]
          rw [← hsched] at hr
          exact hr
      · refine ⟨Or.inl hcx, ?_, ?_, ?_, ?_⟩
        · intro hsp
          simp [hasSplitOp] at hsp
        · intro hmv
          simp [hasMoveOp] at hmv
        · intro op hop
          cases hop
        · intro r hr
          rw [← hsched] at hr
          exact hr

/-- The wait guard does not change the split trigger count. -/
theorem shouldWaitPendingOps_counter (st : SchedState) :
    (shouldWaitPendingOps st).2.splitTrigeCount = st.splitTrigeCount := by
  unfold shouldWaitPendingOps
  split
  · rfl
  · split <;> rfl

/-- Snapshot construction does not change the split trigger count. -/
theorem newMultiBalancer_counter (env : CycleInput) (st : SchedState) :
    (newMultiBalancer env st).2.splitTrigeCount = st.splitTrigeCount := by
  simp only [newMultiBalancer]
  split
  · rfl
  · split <;> rfl

/-- Balancer selection does not change the split trigger count. -/
theorem selectBalancer_counter (env : CycleInput) (st : SchedState) :
    (selectBalancer env st).2.splitTrigeCount = st.splitTrigeCount := by
  unfold selectBalancer
  split
  · rfl
  · exact newMultiBalancer_counter env st

/-- The split trigger count after one balancer run. -/
theorem runWithBalancer_counter (env : CycleInput) (st : SchedState) :
    (runWithBalancer env st).2.splitTrigeCount = st.splitTrigeCount
    ∨ (runWithBalancer env st).2.splitTrigeCount = st.splitTrigeCount + 1
    ∨ (runWithBalancer env st).2.splitTrigeCount = 0 := by
  have h := (solveMultiLoads_facts env (selectBalancer env st).2 (selectBalancer env st).1).1
  rw [selectBalancer_counter] at h
  exact h

/-- A split emission during a balancer run happens exactly when the
count reaches 5. -/
theorem runWithBalancer_split (env : CycleInput) (st : SchedState)
    (hc : hasSplitOp (runWithBalancer env st).1 = true) :
    st.splitTrigeCount = 4 ∧ (runWithBalancer env st).2.splitTrigeCount = 5 := by
  have h := (solveMultiLoads_facts env (selectBalancer env st).2
    (selectBalancer env st).1).2.1 hc
  rw [selectBalancer_counter] at h
  exact h

/-- A migration emission during a balancer run resets the count. -/
theorem runWithBalancer_move (env : CycleInput) (st : SchedState)
    (hc : hasMoveOp (runWithBalancer env st).1 = true) :
    (runWithBalancer env st).2.splitTrigeCount = 0 := by
  exact (solveMultiLoads_facts env (selectBalancer env st).2
    (selectBalancer env st).1).2.2.1 hc

/-- A `Schedule` cycle preserves, increments or resets the split trigger
count. -/
theorem dispatch_counter (env : CycleInput) (st : SchedState) :
    (dispatch env st).2.splitTrigeCount = st.splitTrigeCount
    ∨ (dispatch env st).2.splitTrigeCount = st.splitTrigeCount + 1
    ∨ (dispatch env st).2.splitTrigeCount = 0 := by
  simp only [dispatch]
  split
  · exact Or.inl rfl
  · split
    · refine Or.inl ?_
      rw [shouldWaitPendingOps_counter]
      rfl
    · have h := runWithBalancer_counter env
        (shouldWaitPendingOps (preludeState env st)).2
      rwa [shouldWaitPendingOps_counter] at h

/-- A `Schedule` cycle emits split operators only when its incoming
split trigger count is 4, leaving it at 5. -/
theorem dispatch_split (env : CycleInput) (st : SchedState)
    (hc : hasSplitOp (dispatch env st).1 = true) :
    st.splitTrigeCount = 4 ∧ (dispatch env st).2.splitTrigeCount = 5 := by
  revert hc
  simp only [dispatch]
  split
  · intro hc
    simp [hasSplitOp] at hc
  · split
    · intro hc
      simp [hasSplitOp] at hc
    · intro hc
      have h := runWithBalancer_split env _ hc
      rwa [shouldWaitPendingOps_counter] at h

/-- A `Schedule` cycle that emits a migration operator resets the split
trigger count. -/
theorem dispatch_move (env : CycleInput) (st : SchedState)
    (hc : hasMoveOp (dispatch env st).1 = true) :
    (dispatch env st).2.splitTrigeCount = 0 := by
  revert hc
  simp only [dispatch]
  split
  · intro hc
    simp [hasMoveOp] at hc
  · split
    · intro hc
      simp [hasMoveOp] at hc
    · intro hc
      exact runWithBalancer_move env _ hc

/-- One-step unfolding of a cycle trace. -/
theorem runCycles_cons (env : CycleInput) (rest : List CycleInput) (st : SchedState) :
    runCycles (env :: rest) st
      = ((dispatch env st).1 :: (runCycles rest (dispatch env st).2).1,
         (runCycles rest (dispatch env st).2).2) := rfl

/-- Split-cycle counting over a trace, unfolded one step. -/
theorem splitCycleCount_cons (ops : List Op) (outs : List (List Op)) :
    splitCycleCount (ops :: outs)
      = (if hasSplitOp ops = true then 1 else 0) + splitCycleCount outs := by
  simp only [splitCycleCount, List.filter_cons]
  split <;> simp [Nat.add_comm]

/-- No split emission while the trace is too short to climb to 5. -/
theorem splitZeroOfLow :
    ∀ (envs : List CycleInput) (st : SchedState),
      envs.length + st.splitTrigeCount ≤ 4 →
      splitCycleCount (runCycles envs st).1 = 0 := by
  intro envs
  induction envs with
  | nil => intro st _; rfl
  | cons env rest ih =>
      intro st h
      simp only [List.length_cons] at h
      rw [runCycles_cons, splitCycleCount_cons]
      have hnot : ¬(hasSplitOp (dispatch env st).1 = true) := by
        intro hs
        have h4 := (dispatch_split env st hs).1
        omega
      rw [if_neg hnot, Nat.zero_add]
      apply ih
      rcases dispatch_counter env st with hc | hc | hc <;> rw [hc] <;> omega

/-- No split emission within 5 cycles once the count is at least 5. -/
theorem splitZeroOfHigh :
    ∀ (envs : List CycleInput) (st : SchedState),
      envs.length ≤ 5 → 5 ≤ st.splitTrigeCount →
      splitCycleCount (runCycles envs st).1 = 0 := by
  intro envs
  induction envs with
  | nil => intro st _ _; rfl
  | cons env rest ih =>
      intro st hlen h5
      simp only [List.length_cons] at hlen
      rw [runCycles_cons, splitCycleCount_cons]
      have hnot : ¬(hasSplitOp (dispatch env st).1 = true) := by
        intro hs
        have h4 := (dispatch_split env st hs).1
        omega
      rw [if_neg hnot, Nat.zero_add]
      rcases dispatch_counter env st with hc | hc | hc
      · exact ih _ (by omega) (by omega)
      · exact ih _ (by omega) (by omega)
      · exact splitZeroOfLow rest _ (by omega)

/-- At most one split emission in any window of at most 5 cycles. -/
theorem splitAtMostOnce :
    ∀ (envs : List CycleInput) (st : SchedState),
      envs.length ≤ 5 → splitCycleCount (runCycles envs st).1 ≤ 1 := by
  intro envs
  induction envs with
  | nil => intro st _; exact Nat.zero_le 1
  | cons env rest ih =>
      intro st hlen
      simp only [List.length_cons] at hlen
      rw [runCycles_cons, splitCycleCount_cons]
      by_cases hs : hasSplitOp (dispatch env st).1 = true
      · rw [if_pos hs]
        have h5 := (dispatch_split env st hs).2
        have hz := splitZeroOfHigh rest (dispatch env st).2 (by omega) (by omega)
        omega
      · rw [if_neg hs, Nat.zero_add]
        exact ih _ (by omega)

/-- C10: batch registration is not atomic and is not rolled back: if the
first `i` operators of a batch register successfully and the next
operator's region is already pending at that point, the whole
registration returns false while the scheduler state keeps exactly the
entries registered for the first `i` operators. -/
theorem claim_C10 (st : SchedState) (deci : Decision)
    (batch1 : List (Op × LoadVec)) (op : Op) (infl : LoadVec)
    (batch2 : List (Op × LoadVec))
    (hok : (registerPendingBatch st deci batch1).1 = true)
    (hpend : hasRegionPending (registerPendingBatch st deci batch1).2.regionPendings
      op.regionID = true) :
    registerPendingBatch st deci (batch1 ++ (op, infl) :: batch2)
      = (false, (registerPendingBatch st deci batch1).2) := by
  induction batch1 generalizing st with
  | nil =>
      simp only [registerPendingBatch, List.nil_append] at hok hpend ⊢
      simp [registerPendingBatch, addPendingInfluence, hpend]
  | cons hd t ih =>
      obtain ⟨op1, infl1⟩ := hd
      by_cases hr : (addPendingInfluence st op1 deci infl1).1 = true
      · have e : ∀ rest, registerPendingBatch st deci ((op1, infl1) :: rest)
            = registerPendingBatch (addPendingInfluence st op1 deci infl1).2 deci rest := by
          intro rest
          simp [registerPendingBatch, hr]
        rw [e] at hok hpend
        simp only [List.cons_append, e]
        exact ih _ hok hpend
      · have e : registerPendingBatch st deci ((op1, infl1) :: t)
            = (false, (addPendingInfluence st op1 deci infl1).2) := by
          simp [registerPendingBatch, hr]
        rw [e] at hok
        simp at hok

/-- C10 witness: registering the same operator twice fails at the second
entry and keeps the first registration. -/
theorem claim_C10_witness :
    (registerPendingBatch st0 { srcStoreID := 1, dstStoreID := 2 }
        [(opLive, zeroVec)]).1 = true
    ∧ registerPendingBatch st0 { srcStoreID := 1, dstStoreID := 2 }
        ([(opLive, zeroVec)] ++ (opLive, zeroVec) :: [])
      = (false, (registerPendingBatch st0 { srcStoreID := 1, dstStoreID := 2 }
          [(opLive, zeroVec)]).2) :=
  ⟨by decide,
   claim_C10 st0 { srcStoreID := 1, dstStoreID := 2 } [(opLive, zeroVec)] opLive zeroVec []
     (by decide) (by decide)⟩

/-- C1: a ledger conflict makes `addPendingInfluence` return false with
the scheduler state unchanged; `solveMultiLoads` never returns a
partially registered batch (every returned operator's region is pending
in the resulting state); and on the concrete conflict scenario the whole
cycle returns nil, leaving the ledger unchanged and the region unmarked. -/
theorem claim_C1 :
    (∀ (st : SchedState) (op : Op) (deci : Decision) (infl : LoadVec),
        hasRegionPending st.regionPendings op.regionID = true →
        addPendingInfluence st op deci infl = (false, st))
    ∧ (∀ (env : CycleInput) (st : SchedState) (b : Balancer) (op : Op),
        op ∈ (solveMultiLoads env st b).1 →
        hasRegionPending (solveMultiLoads env st b).2.1.regionPendings
          op.regionID = true)
    ∧ ((dispatch envA stConflict).1 = []
        ∧ (dispatch envA stConflict).2.regionPendings = [(7, opLive)]
        ∧ ((dispatch envA stConflict).2.curBalancer.map
            (fun b => b.scheduledRegions)) = some []) :=
  ⟨addPendingInfluence_conflict,
   fun env st b op hop => (solveMultiLoads_facts env st b).2.2.2.1 op hop,
   by decide⟩

/-- C1 witness: the conflict branch evaluated on the concrete conflicting
state. -/
theorem claim_C1_witness :
    hasRegionPending stConflict.regionPendings opLive.regionID = true
    ∧ addPendingInfluence stConflict opLive { srcStoreID := 1, dstStoreID := 2 } zeroVec
      = (false, stConflict) :=
  ⟨by decide,
   claim_C1.1 stConflict opLive { srcStoreID := 1, dstStoreID := 2 } zeroVec (by decide)⟩

/-- C3: once the relaxation flag is set, any `Schedule` cycle that does
not observe zero pending regions after gc returns with the flag still
set — only a cycle observing zero pending regions can clear it. -/
theorem claim_C3 (env : CycleInput) (st : SchedState)
    (hrelax : st.relaxBalanceCondition = true)
    (hne : ¬(gcRegionPendings env.now env.maxZombieDuration st.regionPendings = [])) :
    (dispatch env st).2.relaxBalanceCondition = true := by
  simp only [dispatch]
  split
  · exact hrelax
  · rw [shouldWait_relax (preludeState env st) hne hrelax]
    simpa using hrelax

/-- C3 witness: a relaxed state with a live pending operator keeps the
flag across a cycle. -/
theorem claim_C3_witness :
    stRelaxPend.relaxBalanceCondition = true
    ∧ ¬(gcRegionPendings envA.now envA.maxZombieDuration stRelaxPend.regionPendings = [])
    ∧ (dispatch envA stRelaxPend).2.relaxBalanceCondition = true :=
  ⟨by decide, by decide, claim_C3 envA stRelaxPend (by decide) (by decide)⟩

/-- C4 (code bug): on a cycle where the operator builder rejects the
candidate (`buildOK` false everywhere), the decision loop does not drop
the candidate and continue — it returns nil for the whole cycle while
still marking region 7 scheduled, mutating the in-memory store loads
(1.5/0.5 become 0.9/1.1) and resetting the split trigger count (3
becomes 0), all without any operator being emitted or registered. -/
theorem claim_C4_bug :
    (dispatch envBuildFail stCnt3).1 = []
    ∧ ((dispatch envBuildFail stCnt3).2.curBalancer.map
        (fun b => b.scheduledRegions)) = some [7]
    ∧ ((dispatch envBuildFail stCnt3).2.curBalancer.map
        (fun b => b.storeInfos.map (fun si => si.loads 0))) = some [9/10, 11/10]
    ∧ (dispatch envBuildFail stCnt3).2.splitTrigeCount = 0
    ∧ (dispatch envBuildFail stCnt3).2.regionPendings = [] := by
  decide

/-- C6 counterexample: with `envA`, cycle 1 emits a move for region 7 and
caches the balancer with scheduled set `[7]`; cycle 2 is a real cycle
(its split trigger advances to 1) that reuses the cached balancer, so it
starts with the nonempty scheduled set `[7]` — the set is not per-cycle. -/
theorem claim_C6_counterexample :
    ((dispatch envA st0).1.map (fun op => op.regionID) = [7])
    ∧ ((dispatch envA st0).2.curBalancer.map (fun b => b.scheduledRegions) = some [7])
    ∧ (dispatch envA st0).2.needInit = false
    ∧ (dispatch envA (dispatch envA st0).2).2.splitTrigeCount = 1
    ∧ ((dispatch envA (dispatch envA st0).2).2.curBalancer.map
        (fun b => b.scheduledRegions) = some [7]) := by
  decide

/-- C6 (amended): the scheduled-regions set is per-balancer, not
per-cycle: it is empty exactly when a new balancer is built; a cycle
whose state carries a cached balancer without a re-initialization
request reuses that balancer as-is (with whatever the set contains); and
a cycle never removes entries from the set. -/
theorem claim_C6 :
    (∀ (env : CycleInput) (st : SchedState),
        (newMultiBalancer env st).1.scheduledRegions = [])
    ∧ (∀ (env : CycleInput) (st : SchedState) (b : Balancer),
        st.curBalancer = some b → st.needInit = false →
        selectBalancer env st = (b, st))
    ∧ (∀ (env : CycleInput) (st : SchedState) (b : Balancer) (r : Nat),
        r ∈ b.scheduledRegions →
        r ∈ (solveMultiLoads env st b).2.2.scheduledRegions) := by
  refine ⟨?_, ?_, ?_⟩
  · intro env st
    simp only [newMultiBalancer]
    split <;> rfl
  · intro env st b h1 h2
    simp only [selectBalancer, h1, h2]
  · intro env st b r hr
    exact (solveMultiLoads_facts env st b).2.2.2.2 r hr

/-- C6 witness: the concrete conflict state reuses its cached balancer. -/
theorem claim_C6_witness :
    selectBalancer envA stConflict = ((newMultiBalancer envA st0).1, stConflict) :=
  claim_C6.2.1 envA stConflict (newMultiBalancer envA st0).1 rfl rfl

/-- C9: `processSplit` increments the split trigger count exactly once
per no-progress cycle reaching the fallback; a cycle emits split
operators only when the count reaches 5 (arriving at 4); a cycle
emitting a migration operator resets the count to 0; and any window of
at most five consecutive no-progress cycles emits splits at most once. -/
theorem claim_C9 :
    (∀ (env : CycleInput) (st : SchedState) (b : Balancer),
        (processSplit env st b).2.1.splitTrigeCount = st.splitTrigeCount + 1)
    ∧ (∀ (env : CycleInput) (st : SchedState),
        hasSplitOp (dispatch env st).1 = true →
        st.splitTrigeCount = 4 ∧ (dispatch env st).2.splitTrigeCount = 5)
    ∧ (∀ (env : CycleInput) (st : SchedState),
        hasMoveOp (dispatch env st).1 = true →
        (dispatch env st).2.splitTrigeCount = 0)
    ∧ (∀ (envs : List CycleInput) (st : SchedState),
        envs.length ≤ 5 →
        (runCycles envs st).1.all (fun ops => !hasMoveOp ops) = true →
        splitCycleCount (runCycles envs st).1 ≤ 1) :=
  ⟨fun env st b => (processSplit_facts env st b).2.1,
   dispatch_split, dispatch_move,
   fun envs st hlen _ => splitAtMostOnce envs st hlen⟩

/-- C9 witness: five consecutive no-progress cycles on the
no-destination cluster emit splits exactly once (at the fifth cycle). -/
theorem claim_C9_witness :
    ([envNoDst, envNoDst, envNoDst, envNoDst, envNoDst].length ≤ 5)
    ∧ ((runCycles [envNoDst, envNoDst, envNoDst, envNoDst, envNoDst] st0).1.all
        (fun ops => !hasMoveOp ops) = true)
    ∧ splitCycleCount
        (runCycles [envNoDst, envNoDst, envNoDst, envNoDst, envNoDst] st0).1 ≤ 1 :=
  ⟨by decide, by decide,
   claim_C9.2.2.2 [envNoDst, envNoDst, envNoDst, envNoDst, envNoDst] st0
     (by decide) (by decide)⟩

end MultiDim
